import Mathlib

/-!
Verification of the EVA repository: a Figma plugin (`src/code.ts`) that
serializes a selected visual-node subtree, an HTTP server
(`src/server/server.js`) that forwards the serialized document to a text
model and recovers a JSON array of findings from the free-form reply, and
a panel UI (`src/unnamed/part_000`) that renders the findings.

Strings are modelled as `List Char`.  JavaScript numbers appearing in the
data model are modelled as `Int` (no claim depends on fractional values).
JSON values are modelled by the inductive `Json`; `JSON.parse` and
`JSON.stringify` (platform built-ins used by the source) are modelled by
`parseJsonText` and `jsonStringify` below.
-/

namespace Eva

/-- A JSON value, as produced by `JSON.parse`.  Numbers keep their source
lexeme (no claim compares numeric values arithmetically).  Object members
keep their source order; a duplicate key is resolved to its last
occurrence at lookup time, as in JavaScript. -/
inductive Json : Type where
  | null : Json
  | bool (b : Bool) : Json
  | num (raw : List Char) : Json
  | str (s : List Char) : Json
  | arr (items : List Json) : Json
  | obj (members : List (List Char × Json)) : Json

/-- Hexadecimal digit characters, lowercase as emitted by `JSON.stringify`. -/
def hexDigit (n : Nat) : Char :=
  if n < 10 then Char.ofNat (48 + n) else Char.ofNat (87 + n)

/-- Value of one hexadecimal digit character, upper or lower case. -/
def hexVal? (c : Char) : Option Nat :=
  if '0' ≤ c ∧ c ≤ '9' then some (c.toNat - 48)
  else if 'a' ≤ c ∧ c ≤ 'f' then some (c.toNat - 87)
  else if 'A' ≤ c ∧ c ≤ 'F' then some (c.toNat - 55)
  else none

/-- `JSON.stringify` escaping of a single character inside a string
literal: quote and backslash are escaped, the five short control escapes
are used where they exist, any other control character becomes a
`\u00XX` escape, and everything else is emitted verbatim. -/
def escapeChar (c : Char) : List Char :=
  if c = '"' then ['\\', '"']
  else if c = '\\' then ['\\', '\\']
  else if c = '\x08' then ['\\', 'b']
  else if c = '\t' then ['\\', 't']
  else if c = '\n' then ['\\', 'n']
  else if c = '\x0c' then ['\\', 'f']
  else if c = '\r' then ['\\', 'r']
  else if c.toNat < 32 then
    ['\\', 'u', '0', '0', hexDigit (c.toNat / 16), hexDigit (c.toNat % 16)]
  else [c]

/-- Body of a serialized JSON string literal (no surrounding quotes). -/
def escBody (s : List Char) : List Char := s.flatMap escapeChar

/-- A serialized JSON string literal, quotes included. -/
def quoteString (s : List Char) : List Char := '"' :: escBody s ++ ['"']

mutual

/-- Model of `JSON.stringify` (compact form, no indentation), as used by
the client to build request bodies and referenced by the spec's
round-trip property. -/
def jsonStringify : Json → List Char
  | .null => String.toList "null"
  | .bool true => String.toList "true"
  | .bool false => String.toList "false"
  | .num raw => raw
  | .str s => quoteString s
  | .arr items => '[' :: stringifyElems items ++ [']']
  | .obj members => '{' :: stringifyMembers members ++ ['}']

/-- Comma-separated serialization of array elements. -/
def stringifyElems : List Json → List Char
  | [] => []
  | [x] => jsonStringify x
  | x :: xs => jsonStringify x ++ ',' :: stringifyElems xs

/-- Comma-separated serialization of object members. -/
def stringifyMembers : List (List Char × Json) → List Char
  | [] => []
  | [(k, v)] => quoteString k ++ ':' :: jsonStringify v
  | (k, v) :: xs => quoteString k ++ ':' :: jsonStringify v ++ ',' :: stringifyMembers xs

end

/-- JSON insignificant whitespace. -/
def isJsonWs (c : Char) : Bool := c = ' ' ∨ c = '\t' ∨ c = '\n' ∨ c = '\r'

/-- Drop leading JSON whitespace. -/
def skipWs : List Char → List Char
  | [] => []
  | c :: rest => if isJsonWs c then skipWs rest else c :: rest

/-- The single-character string escapes accepted by `JSON.parse`. -/
def simpleEscape? (e : Char) : Option Char :=
  if e = '"' then some '"'
  else if e = '\\' then some '\\'
  else if e = '/' then some '/'
  else if e = 'b' then some '\x08'
  else if e = 'f' then some '\x0c'
  else if e = 'n' then some '\n'
  else if e = 'r' then some '\r'
  else if e = 't' then some '\t'
  else none

/-- Parse the body of a JSON string literal after the opening quote,
returning the decoded characters and the input remaining after the
closing quote.  Unescaped control characters are rejected, as by
`JSON.parse`. -/
def parseStringBody : List Char → Option (List Char × List Char)
  | [] => none
  | '"' :: rest => some ([], rest)
  | '\\' :: 'u' :: h1 :: h2 :: h3 :: h4 :: rest =>
    match hexVal? h1, hexVal? h2, hexVal? h3, hexVal? h4 with
    | some a, some b, some c2, some d =>
      (parseStringBody rest).map
        (fun p => (Char.ofNat (((a * 16 + b) * 16 + c2) * 16 + d) :: p.1, p.2))
    | _, _, _, _ => none
  | '\\' :: e :: rest =>
    match simpleEscape? e with
    | some c2 => (parseStringBody rest).map (fun p => (c2 :: p.1, p.2))
    | none => none
  | c :: rest =>
    if c.toNat < 32 then none
    else (parseStringBody rest).map (fun p => (c :: p.1, p.2))

/-- Parse the fractional part of a JSON number, if present. -/
def parseFrac : List Char → Option (List Char × List Char)
  | '.' :: r =>
    match r.span Char.isDigit with
    | ([], _) => none
    | (ds, r2) => some ('.' :: ds, r2)
  | l => some ([], l)

/-- Parse the exponent part of a JSON number, if present. -/
def parseExp : List Char → Option (List Char × List Char)
  | [] => some ([], [])
  | c :: r =>
    if c = 'e' ∨ c = 'E' then
      let sr : List Char × List Char :=
        match r with
        | s :: r2 => if s = '+' ∨ s = '-' then ([s], r2) else ([], s :: r2)
        | [] => ([], [])
      match sr.2.span Char.isDigit with
      | ([], _) => none
      | (ds, r3) => some (c :: sr.1 ++ ds, r3)
    else some ([], c :: r)

/-- Parse a JSON number lexeme (`-? (0 | [1-9][0-9]*) frac? exp?`),
returning the lexeme and the rest of the input. -/
def parseNumberLex (l : List Char) : Option (List Char × List Char) :=
  let nr : List Char × List Char :=
    match l with
    | '-' :: r => (['-'], r)
    | _ => ([], l)
  match nr.2 with
  | '0' :: r =>
    match parseFrac r with
    | none => none
    | some (f, r2) =>
      match parseExp r2 with
      | none => none
      | some (e, r3) => some (nr.1 ++ '0' :: f ++ e, r3)
  | c :: r =>
    if c.isDigit then
      match r.span Char.isDigit with
      | (ds, r1) =>
        match parseFrac r1 with
        | none => none
        | some (f, r2) =>
          match parseExp r2 with
          | none => none
          | some (e, r3) => some (nr.1 ++ c :: ds ++ f ++ e, r3)
    else none
  | [] => none

mutual

/-- Fuel-indexed model of `JSON.parse`'s grammar for one value: parses a
value from the input and returns it with the remaining input.  The fuel
only bounds recursion depth; `parseJsonText` supplies more fuel than any
input can consume. -/
def parseValue : Nat → List Char → Option (Json × List Char)
  | 0, _ => none
  | Nat.succ fuel, l =>
    match skipWs l with
    | [] => none
    | c :: rest =>
      if c = '"' then (parseStringBody rest).map (fun p => (.str p.1, p.2))
      else if c = '{' then
        match skipWs rest with
        | '}' :: rest2 => some (.obj [], rest2)
        | rest2 => (parseMembers fuel rest2).map (fun p => (.obj p.1, p.2))
      else if c = '[' then
        match skipWs rest with
        | ']' :: rest2 => some (.arr [], rest2)
        | rest2 => (parseElems fuel rest2).map (fun p => (.arr p.1, p.2))
      else if c = 't' then
        match rest with
        | 'r' :: 'u' :: 'e' :: rest2 => some (.bool true, rest2)
        | _ => none
      else if c = 'f' then
        match rest with
        | 'a' :: 'l' :: 's' :: 'e' :: rest2 => some (.bool false, rest2)
        | _ => none
      else if c = 'n' then
        match rest with
        | 'u' :: 'l' :: 'l' :: rest2 => some (.null, rest2)
        | _ => none
      else if c = '-' ∨ c.isDigit then
        (parseNumberLex (c :: rest)).map (fun p => (.num p.1, p.2))
      else none

/-- Parse one or more object members separated by commas, up to and
including the closing brace. -/
def parseMembers : Nat → List Char → Option (List (List Char × Json) × List Char)
  | 0, _ => none
  | Nat.succ fuel, l =>
    match skipWs l with
    | '"' :: rest =>
      match parseStringBody rest with
      | none => none
      | some (key, rest2) =>
        match skipWs rest2 with
        | ':' :: rest3 =>
          match parseValue fuel rest3 with
          | none => none
          | some (v, rest4) =>
            match skipWs rest4 with
            | ',' :: rest5 => (parseMembers fuel rest5).map (fun p => ((key, v) :: p.1, p.2))
            | '}' :: rest5 => some ([(key, v)], rest5)
            | _ => none
        | _ => none
    | _ => none

/-- Parse one or more array elements separated by commas, up to and
including the closing bracket. -/
def parseElems : Nat → List Char → Option (List Json × List Char)
  | 0, _ => none
  | Nat.succ fuel, l =>
    match parseValue fuel l with
    | none => none
    | some (v, rest) =>
      match skipWs rest with
      | ',' :: rest2 => (parseElems fuel rest2).map (fun p => (v :: p.1, p.2))
      | ']' :: rest2 => some ([v], rest2)
      | _ => none

end

/-- Model of `JSON.parse`: the whole text must be one JSON value
surrounded by at most whitespace. -/
def parseJsonText (l : List Char) : Option Json :=
  match parseValue (l.length + 1) l with
  | some (v, rest) => if skipWs rest = [] then some v else none
  | none => none

/-!
## Response recovery (server.js, `/analyze` route)

`responseContent.replace(/```json\n|\n```$|```\n|\n```/g, '')` followed by
`responseContent.match(/\[[\s\S]*\]/)`, `JSON.parse`, an `Array.isArray`
check, a key-presence filter, and a non-empty check.
-/

/-- Model of the fence-stripping `String.replace` call: scanning left to
right, an occurrence of `"```json\n"`, `"```\n"` or `"\n```"` is deleted
and scanning resumes after it; any other character is kept.  (The
alternative `\n```$` of the source regex deletes the same four characters
as the unanchored `\n```` alternative, so it needs no separate case.) -/
def stripFences : List Char → List Char
  | '`' :: '`' :: '`' :: 'j' :: 's' :: 'o' :: 'n' :: '\n' :: rest => stripFences rest
  | '`' :: '`' :: '`' :: '\n' :: rest => stripFences rest
  | '\n' :: '`' :: '`' :: '`' :: rest => stripFences rest
  | c :: rest => c :: stripFences rest
  | [] => []

/-- Index of the first `'['` in the text, if any. -/
def firstOpenIdx (l : List Char) : Option Nat := l.findIdx? (· = '[')

/-- Index of the last `']'` in the text, if any. -/
def lastCloseIdx (l : List Char) : Option Nat :=
  (l.reverse.findIdx? (· = ']')).map (fun k => l.length - 1 - k)

/-- Model of `responseContent.match(/\[[\s\S]*\]/)`: the match, when one
exists, runs from the first `'['` to the last `']'`; it exists exactly
when some `']'` occurs after the first `'['`. -/
def extractArray (l : List Char) : Option (List Char) :=
  match firstOpenIdx l, lastCloseIdx l with
  | some i, some j => if i < j then some ((l.drop i).take (j - i + 1)) else none
  | _, _ => none

/-- The key `"heuristic"`. -/
def keyHeuristic : List Char := String.toList "heuristic"

/-- The key `"issue"`. -/
def keyIssue : List Char := String.toList "issue"

/-- The key `"suggestion"`. -/
def keySuggestion : List Char := String.toList "suggestion"

/-- JavaScript `key in obj` on a parsed object: membership among the
member keys. -/
def hasKey (members : List (List Char × Json)) (key : List Char) : Bool :=
  members.any (fun kv => kv.1 = key)

/-- The filter predicate of `validResults`: the entry is a (non-array)
object and has all three keys `heuristic`, `issue`, `suggestion`.  Value
types and emptiness are not checked by the source. -/
def isValidFinding : Json → Bool
  | .obj members => hasKey members keyHeuristic && hasKey members keyIssue
      && hasKey members keySuggestion
  | _ => false

/-- The distinct failure reasons of the `/analyze` recovery path. -/
inductive RecoverError : Type where
  | noJsonArray : RecoverError
  | parseFailed : RecoverError
  | notAnArray : RecoverError
  | noValidFindings : RecoverError
  deriving DecidableEq

/-- `JSON.parse` + `Array.isArray` + field filter + non-empty check on
the extracted array text. -/
def parseAndValidate (sub : List Char) : Except RecoverError (List Json) :=
  match parseJsonText sub with
  | none => .error .parseFailed
  | some v =>
    match v with
    | .arr items =>
      let validResults := items.filter isValidFinding
      if validResults.length = 0 then .error .noValidFindings else .ok validResults
    | _ => .error .notAnArray

/-- The recovery stages after fence stripping: array extraction, then
parse and validation. -/
def recoverFromStripped (l : List Char) : Except RecoverError (List Json) :=
  match extractArray l with
  | none => .error .noJsonArray
  | some sub => parseAndValidate sub

/-- The full response-recovery pipeline of the `/analyze` route. -/
def recover (raw : List Char) : Except RecoverError (List Json) :=
  recoverFromStripped (stripFences raw)

/-- The `error` field of the HTTP 500 body each failure is reported
with: `noJsonArray` is thrown before the inner `try` and caught by the
outer handler; the other three are caught by the inner handler. -/
def failureErrorField : RecoverError → List Char
  | .noJsonArray => String.toList "Failed to get analysis from AI"
  | _ => String.toList "Failed to parse analysis results from AI."

/-- The `details` field of the HTTP 500 body: the thrown message, where
the source states one (for `parseFailed` it is an engine-generated
`SyntaxError` message, modelled as `none`). -/
def failureDetails : RecoverError → Option (List Char)
  | .noJsonArray => some (String.toList "No valid JSON array found in response")
  | .parseFailed => none
  | .notAnArray => some (String.toList "Response is not an array")
  | .noValidFindings => some (String.toList "No valid analysis results found")

/-!
## Node serializer (code.ts, `extractComponentData` / `extractLayerData`)

A `VisualNode` models a Figma `SceneNode` as read by the serializer.
Attribute presence (`'width' in node` style checks) is modelled with
`Option`; for `fontSize`/`fontName` the inner absence also stands for the
`figma.mixed` sentinel, and for `fills`/`strokes` the inner `none` stands
for a non-array (`figma.mixed`) value, which `Array.isArray` rejects.
-/

/-- A resolved font name, copied verbatim. -/
structure FontName where
  family : List Char
  style : List Char
  deriving DecidableEq

/-- Opaque paint payload, copied verbatim by the serializer. -/
structure Paint where
  raw : List Char
  deriving DecidableEq

/-- Opaque constraints payload, copied verbatim. -/
structure Constraints where
  raw : List Char
  deriving DecidableEq

/-- All four padding sides, set together by the serializer. -/
structure Padding where
  top : Int
  right : Int
  bottom : Int
  left : Int
  deriving DecidableEq

/-- The non-recursive attributes of a source node. -/
structure NodeAttrs where
  id : List Char
  name : List Char
  type : List Char
  width : Option Int
  height : Option Int
  x : Option Int
  y : Option Int
  visible : Bool
  opacity : Option Int
  characters : List Char
  fontSize : Option Int
  fontName : Option FontName
  fills : Option (Option (List Paint))
  strokes : Option (Option (List Paint))
  layoutMode : Option (List Char)
  paddingTop : Int
  paddingRight : Int
  paddingBottom : Int
  paddingLeft : Int
  itemSpacing : Int
  constraints : Option Constraints
  layoutAlign : Option (List Char)

/-- A source scene node: attributes plus an optional `children` list
(`none` when the node has no `children` property). -/
inductive VisualNode : Type where
  | mk (attrs : NodeAttrs) (childrenProp : Option (List VisualNode)) : VisualNode

/-- The attributes of a node. -/
def VisualNode.attrs : VisualNode → NodeAttrs
  | .mk a _ => a

/-- The `children` property of a node, when present. -/
def VisualNode.childrenProp : VisualNode → Option (List VisualNode)
  | .mk _ cs => cs

/-- The source child list (empty when the property is absent). -/
def VisualNode.kids (n : VisualNode) : List VisualNode := n.childrenProp.getD []

/-- The non-recursive fields of the serialized `LayerData` object.
`none` models an absent key or an `undefined` value. -/
structure LayerAttrs where
  id : List Char
  name : List Char
  type : List Char
  width : Int
  height : Int
  x : Option Int
  y : Option Int
  visible : Bool
  opacity : Option Int
  characters : Option (List Char)
  fontSize : Option Int
  fontName : Option FontName
  fills : Option (List Paint)
  strokes : Option (List Paint)
  layoutMode : Option (List Char)
  padding : Option Padding
  itemSpacing : Option Int
  constraints : Option Constraints
  layoutAlign : Option (List Char)

/-- A serialized layer: attributes plus serialized children. -/
inductive LayerData : Type where
  | mk (attrs : LayerAttrs) (children : List LayerData) : LayerData

/-- The attributes of a serialized layer. -/
def LayerData.attrs : LayerData → LayerAttrs
  | .mk a _ => a

/-- The serialized children of a layer. -/
def LayerData.children : LayerData → List LayerData
  | .mk _ cs => cs

/-- The `switch` cases of `extractLayerData` that process children and
layout: `FRAME`, `GROUP`, `COMPONENT`, `COMPONENT_SET`, `INSTANCE`. -/
def isContainerType (t : List Char) : Bool :=
  t = String.toList "FRAME" ∨ t = String.toList "GROUP"
    ∨ t = String.toList "COMPONENT" ∨ t = String.toList "COMPONENT_SET"
    ∨ t = String.toList "INSTANCE"

/-- The non-recursive part of `extractLayerData`: base fields with their
guards, the `TEXT` case, the container layout case, and the trailing
style/constraint copies. -/
def extractBaseAttrs (a : NodeAttrs) : LayerAttrs :=
  { id := a.id
    name := a.name
    type := a.type
    width := a.width.getD 0
    height := a.height.getD 0
    x := a.x
    y := a.y
    visible := a.visible
    opacity := a.opacity
    characters := if a.type = String.toList "TEXT" then some a.characters else none
    fontSize := if a.type = String.toList "TEXT" then a.fontSize else none
    fontName := if a.type = String.toList "TEXT" then a.fontName else none
    layoutMode := if isContainerType a.type then a.layoutMode else none
    padding :=
      if isContainerType a.type then
        match a.layoutMode with
        | some m =>
          if m = String.toList "NONE" then none
          else some ⟨a.paddingTop, a.paddingRight, a.paddingBottom, a.paddingLeft⟩
        | none => none
      else none
    itemSpacing :=
      if isContainerType a.type then
        match a.layoutMode with
        | some m => if m = String.toList "NONE" then none else some a.itemSpacing
        | none => none
      else none
    fills := match a.fills with | some (some ps) => some ps | _ => none
    strokes := match a.strokes with | some (some ps) => some ps | _ => none
    constraints := a.constraints
    layoutAlign := a.layoutAlign }

mutual

/-- Model of `extractLayerData`: children are serialized recursively in
source order, but only for the container-typed `switch` cases and only
when the `children` property exists; otherwise the children list stays
empty. -/
def extractLayerData : VisualNode → LayerData
  | .mk a none => .mk (extractBaseAttrs a) []
  | .mk a (some cs) =>
    .mk (extractBaseAttrs a) (if isContainerType a.type then extractLayerList cs else [])

/-- `children.map(child => extractLayerData(child))`. -/
def extractLayerList : List VisualNode → List LayerData
  | [] => []
  | c :: cs => extractLayerData c :: extractLayerList cs

end

/-- The serialized root document.  `base` is the spread `baseData`;
`layoutMode`, `childrenCount`, `padding` and `itemSpacing` are the
root-level fields after the conditional overwrites. -/
structure ComponentData where
  base : LayerData
  layoutMode : List Char
  childrenCount : Nat
  padding : Option Padding
  itemSpacing : Option Int

/-- Model of `extractComponentData`: the root layer is serialized, then
the root-level `layoutMode` (defaulting to `"NONE"`), `childrenCount`,
and — only when a layout mode exists and is not `"NONE"` — the root
padding and item spacing are overwritten. -/
def extractComponentData (n : VisualNode) : ComponentData :=
  let baseData := extractLayerData n
  { base := baseData
    layoutMode := n.attrs.layoutMode.getD (String.toList "NONE")
    childrenCount := (n.childrenProp.map List.length).getD 0
    padding :=
      match n.attrs.layoutMode with
      | some m =>
        if m = String.toList "NONE" then baseData.attrs.padding
        else some ⟨n.attrs.paddingTop, n.attrs.paddingRight, n.attrs.paddingBottom,
            n.attrs.paddingLeft⟩
      | none => baseData.attrs.padding
    itemSpacing :=
      match n.attrs.layoutMode with
      | some m =>
        if m = String.toList "NONE" then baseData.attrs.itemSpacing
        else some n.attrs.itemSpacing
      | none => baseData.attrs.itemSpacing }

mutual

/-- Number of nodes in a source subtree (absent `children` property
counts as no children). -/
def nodeCount : VisualNode → Nat
  | .mk _ none => 1
  | .mk _ (some cs) => 1 + nodeCountList cs

/-- Total node count of a list of source subtrees. -/
def nodeCountList : List VisualNode → Nat
  | [] => 0
  | c :: cs => nodeCount c + nodeCountList cs

end

mutual

/-- Number of nodes in a serialized document. -/
def layerCount : LayerData → Nat
  | .mk _ cs => 1 + layerCountList cs

/-- Total node count of a list of serialized documents. -/
def layerCountList : List LayerData → Nat
  | [] => 0
  | c :: cs => layerCount c + layerCountList cs

end

mutual

/-- A source tree in which every node that actually has children is of a
container type — the shape the Figma host produces for the five
container node types, under which serialization is structure-preserving. -/
def wellFormedTree : VisualNode → Bool
  | .mk _ none => true
  | .mk a (some cs) => (cs.isEmpty || isContainerType a.type) && wellFormedList cs

/-- Every tree of the list is well-formed. -/
def wellFormedList : List VisualNode → Bool
  | [] => true
  | c :: cs => wellFormedTree c && wellFormedList cs

end

/-!
## Client error handling (code.ts / claude.ts, `analyzeComponentWithClaude`)
-/

/-- JavaScript truthiness of a parsed JSON value. -/
def isZeroNumLexeme (raw : List Char) : Bool :=
  (raw.takeWhile (fun c => c ≠ 'e' ∧ c ≠ 'E')).all (fun c => c = '0' ∨ c = '-' ∨ c = '.')

/-- JavaScript truthiness of a parsed JSON value: `null`, `false`, the
empty string and numeric zero are falsy; objects and arrays are truthy. -/
def jsTruthy : Json → Bool
  | .null => false
  | .bool b => b
  | .str s => !s.isEmpty
  | .num raw => !isZeroNumLexeme raw
  | .arr _ => true
  | .obj _ => true

mutual

/-- JavaScript `String()` coercion of a parsed JSON value, as performed
by the template literal building the error message. -/
def jsToString : Json → List Char
  | .null => String.toList "null"
  | .bool true => String.toList "true"
  | .bool false => String.toList "false"
  | .num raw => raw
  | .str s => s
  | .arr items => jsArrayToString items
  | .obj _ => String.toList "[object Object]"

/-- `Array.prototype.toString`: elements joined with commas, `null`
elements contributing the empty string. -/
def jsArrayToString : List Json → List Char
  | [] => []
  | [.null] => []
  | [x] => jsToString x
  | .null :: xs => ',' :: jsArrayToString xs
  | x :: xs => jsToString x ++ ',' :: jsArrayToString xs

end

/-- JavaScript property read `j.key` on a parsed JSON value: on an
object the last member with that key, otherwise `undefined` (`none`).
(A read on `null` throws instead and is handled at the call site.) -/
def getField : Json → List Char → Option Json
  | .obj members, key => (members.reverse.find? (fun kv => kv.1 = key)).map (fun kv => kv.2)
  | _, _ => none

/-- `response.ok`: status in the 2xx range. -/
def responseOk (status : Nat) : Bool := 200 ≤ status ∧ status < 300

/-- `errorData`: the response body parsed as JSON, or
`{ error: response.statusText }` when the body is not valid JSON. -/
def errorDataOf (statusText body : List Char) : Json :=
  match parseJsonText body with
  | some j => j
  | none => .obj [(String.toList "error", .str statusText)]

/-- The single error string built for a non-2xx response:
`Server error: ${errorData.error || response.statusText}`.  When the
body parses to JSON `null`, the property read `errorData.error` throws a
`TypeError` before any message is built, modelled as `none`. -/
def clientErrorText (statusText body : List Char) : Option (List Char) :=
  match errorDataOf statusText body with
  | .null => none
  | j =>
    match getField j (String.toList "error") with
    | some v =>
      if jsTruthy v then some (String.toList "Server error: " ++ jsToString v)
      else some (String.toList "Server error: " ++ statusText)
    | none => some (String.toList "Server error: " ++ statusText)

/-- The fetch handler of `analyzeComponentWithClaude`: a 2xx response is
parsed as the result list; a non-2xx response is converted to the single
error string (or to a thrown `TypeError`, `.error none`). -/
def handleFetchResponse (status : Nat) (statusText body : List Char) :
    Except (Option (List Char)) (Option Json) :=
  if responseOk status then .ok (parseJsonText body)
  else .error (clientErrorText statusText body)

/-!
## Plugin/UI message contract (code.ts `figma.ui.onmessage`,
ui.html `window.onmessage`)
-/

/-- One structured finding as typed by the plugin. -/
structure AnalysisResult where
  heuristic : List Char
  issue : List Char
  suggestion : List Char
  deriving DecidableEq

/-- The message kinds the plugin can post to the panel. -/
inductive PluginMessage : Type where
  | selectionInfo (name hierarchy : List Char) (hasPreview : Bool) : PluginMessage
  | analysisResult (data : AnalysisResult) : PluginMessage
  | analysisComplete : PluginMessage
  | analysisError (message : List Char) : PluginMessage
  | analysisNoResults : PluginMessage
  deriving DecidableEq

/-- The message kinds on which the panel's handler sets
`analyzeButton.disabled = false` unconditionally. -/
def isReenablingKind : PluginMessage → Bool
  | .analysisComplete => true
  | .analysisError _ => true
  | .analysisNoResults => true
  | _ => false

/-- The messages the plugin's analyze handler posts when the server call
succeeds: one `analysis-result` per finding in order, or a single
`analysis-no-results` for an empty list. -/
def analyzeSuccessMessages (analysisResults : List AnalysisResult) : List PluginMessage :=
  if analysisResults.length > 0 then analysisResults.map PluginMessage.analysisResult
  else [PluginMessage.analysisNoResults]

/-- The message the plugin's analyze handler posts when the server call
throws. -/
def analyzeFailureMessages (message : List Char) : List PluginMessage :=
  [PluginMessage.analysisError message]

/-- The panel state the claims are about: whether the analyze button is
disabled, and the cards appended to the results area. -/
structure UIState where
  analyzeDisabled : Bool
  resultCards : Nat
  errorCards : Nat
  infoCards : Nat
  deriving DecidableEq

/-- The panel's `window.onmessage` handler. `selection-info` recomputes
the disabled flag from the selection name; the three completion kinds
re-enable the button; `analysis-result`, `analysis-error` and
`analysis-no-results` each append a card. -/
def uiOnMessage (st : UIState) (m : PluginMessage) : UIState :=
  match m with
  | .selectionInfo name _ _ =>
    { st with analyzeDisabled :=
        name = String.toList "None" ∨ name = String.toList "Multiple Selected"
          ∨ name = String.toList "No Parent Frame" }
  | .analysisResult _ => { st with resultCards := st.resultCards + 1 }
  | .analysisComplete => { st with analyzeDisabled := false }
  | .analysisError _ => { st with analyzeDisabled := false, errorCards := st.errorCards + 1 }
  | .analysisNoResults => { st with analyzeDisabled := false, infoCards := st.infoCards + 1 }

/-- Clicking the analyze button disables it before the plugin replies. -/
def uiClickAnalyze (st : UIState) : UIState := { st with analyzeDisabled := true }

/-!
## Concrete material shared by the tests
-/

/-- A baseline attribute record for the concrete test nodes; individual
fields are overridden where a test needs it. -/
def plainAttrs : NodeAttrs where
  id := String.toList "1:1"
  name := String.toList "Node"
  type := String.toList "RECTANGLE"
  width := some 100
  height := some 50
  x := some 10
  y := some 20
  visible := true
  opacity := some 1
  characters := []
  fontSize := none
  fontName := none
  fills := none
  strokes := none
  layoutMode := none
  paddingTop := 0
  paddingRight := 0
  paddingBottom := 0
  paddingLeft := 0
  itemSpacing := 0
  constraints := none
  layoutAlign := none

/-- A frame node with vertical auto-layout and padding 8 on all four
sides, as in the spec's end-to-end scenario. -/
def vertFrameNode : VisualNode :=
  .mk { plainAttrs with
    type := String.toList "FRAME",
    layoutMode := some (String.toList "VERTICAL"),
    paddingTop := 8, paddingRight := 8, paddingBottom := 8, paddingLeft := 8,
    itemSpacing := 4 } (some [])

/-- A three-node tree: a frame with a rectangle child and a text child. -/
def smallTree : VisualNode :=
  .mk { plainAttrs with type := String.toList "FRAME" }
    (some [.mk plainAttrs none,
      .mk { plainAttrs with
        type := String.toList "TEXT",
        characters := String.toList "Hi", fontSize := some 10 } none])

/-- One structured finding with the three required string fields. -/
structure Finding where
  heuristic : List Char
  issue : List Char
  suggestion : List Char

/-- The JavaScript object for a finding, keys in insertion order. -/
def findingToJson (f : Finding) : Json :=
  .obj [(keyHeuristic, .str f.heuristic), (keyIssue, .str f.issue),
    (keySuggestion, .str f.suggestion)]

/-!
## Helper lemmas
-/

/-- The serialized attributes of any node are `extractBaseAttrs` of its
source attributes. -/
theorem extract_attrs_eq (n : VisualNode) :
    (extractLayerData n).attrs = extractBaseAttrs n.attrs := by
  obtain ⟨a, ocs⟩ := n
  cases ocs <;> rfl

/-- A message stream of bare `analysis-result` messages never changes
the disabled state of the analyze button. -/
theorem foldl_analysisResults_disabled (rs : List AnalysisResult) (st : UIState) :
    ((rs.map PluginMessage.analysisResult).foldl uiOnMessage st).analyzeDisabled
      = st.analyzeDisabled := by
  induction rs generalizing st with
  | nil => rfl
  | cons r rs ih => simpa [uiOnMessage] using ih _

/-- Serializing a child list is mapping the serializer over it. -/
theorem extractLayerList_eq_map (cs : List VisualNode) :
    extractLayerList cs = cs.map extractLayerData := by
  induction cs with
  | nil => rfl
  | cons c cs ih => simp [extractLayerList, ih]

mutual

/-- On a well-formed tree the serializer preserves the node count. -/
theorem layerCount_extract : ∀ n : VisualNode, wellFormedTree n = true →
    layerCount (extractLayerData n) = nodeCount n
  | .mk a none, _ => rfl
  | .mk a (some cs), h => by
    have h' : ((cs.isEmpty || isContainerType a.type) && wellFormedList cs) = true := h
    rw [Bool.and_eq_true, Bool.or_eq_true] at h'
    rcases h' with ⟨hc | hc, hw⟩
    · rw [List.isEmpty_iff] at hc
      subst hc
      cases hct : isContainerType a.type <;>
        simp [extractLayerData, layerCount, layerCountList, nodeCount, nodeCountList,
          extractLayerList, hct]
    · simp only [extractLayerData, hc, if_true, layerCount, nodeCount]
      rw [layerCountList_extract cs hw]

/-- On well-formed trees the serializer preserves the total count of a
child list. -/
theorem layerCountList_extract : ∀ cs : List VisualNode, wellFormedList cs = true →
    layerCountList (extractLayerList cs) = nodeCountList cs
  | [], _ => rfl
  | c :: cs, h => by
    have h' : (wellFormedTree c && wellFormedList cs) = true := h
    rw [Bool.and_eq_true] at h'
    simp only [extractLayerList, layerCountList, nodeCountList]
    rw [layerCount_extract c h'.1, layerCountList_extract cs h'.2]

end

/-!
## Claims
-/

/-- C3: recovery on text with no JSON array fails, recovery on the valid
but empty array `"[]"` also fails, and the two failures carry distinct
reasons (distinct error constructors, mapped to distinct `error` and
`details` strings in the HTTP 500 body), so callers can distinguish
them. -/
theorem recover_failure_reasons_distinct :
    recover (String.toList "no array here") = .error .noJsonArray
    ∧ recover (String.toList "[]") = .error .noValidFindings
    ∧ failureErrorField .noJsonArray ≠ failureErrorField .noValidFindings
    ∧ failureDetails .noJsonArray ≠ failureDetails .noValidFindings :=
  ⟨rfl, rfl, by decide, by decide⟩

/-- C5 (counterexample): the first recovery step does not remove fence
delimiters carrying a language tag other than `json`: stripping
`"```python\n[1]\n```"` leaves the opening delimiter (and its backticks)
in place, refuting "removes fenced code-block delimiters (... with or
without a language tag) occurring anywhere in the response text". -/
theorem fence_tag_not_stripped_cex :
    stripFences (String.toList "```python\n[1]\n```") = String.toList "```python\n[1]"
    ∧ '`' ∈ stripFences (String.toList "```python\n[1]\n```") :=
  ⟨rfl, by decide⟩

/-- C6 (counterexample): a node whose source lacks the `opacity` and `x`
attributes is serialized with no `opacity` key and an undefined `x` —
neither field is defaulted to `1` resp. `0`, refuting the claim. -/
theorem numeric_defaults_cex :
    (extractLayerData (.mk { plainAttrs with opacity := none, x := none } none)).attrs.opacity
        = none
    ∧ (extractLayerData (.mk { plainAttrs with opacity := none, x := none } none)).attrs.x
        = none :=
  ⟨rfl, rfl⟩

/-- C6 (amended): `width` and `height` are always present and fail over
to `0` when the source attribute is absent; `x` and `y` are copied
unguarded (an absent source attribute yields an undefined value, not
`0`); `opacity` is copied only when the source exposes it and is
otherwise omitted (not defaulted to `1`). -/
theorem numeric_fields_policy (n : VisualNode) :
    (extractLayerData n).attrs.width = n.attrs.width.getD 0
    ∧ (extractLayerData n).attrs.height = n.attrs.height.getD 0
    ∧ (extractLayerData n).attrs.x = n.attrs.x
    ∧ (extractLayerData n).attrs.y = n.attrs.y
    ∧ (extractLayerData n).attrs.opacity = n.attrs.opacity := by
  obtain ⟨a, ocs⟩ := n
  cases ocs <;> exact ⟨rfl, rfl, rfl, rfl, rfl⟩

/-- C7 (counterexample): the serializer emits layout information even
when the source layout mode is `"NONE"`: a frame with layout mode
`"NONE"` is serialized with `layoutMode = "NONE"`, and the root document
carries a `layoutMode` field (defaulted to `"NONE"`) even when the source
has no layout mode at all — refuting "includes layout information only
when the source layout mode is not NONE". -/
theorem layout_none_emitted_cex :
    (extractLayerData (.mk { plainAttrs with
        type := String.toList "FRAME",
        layoutMode := some (String.toList "NONE") } (some []))).attrs.layoutMode
      = some (String.toList "NONE")
    ∧ (extractComponentData (.mk plainAttrs none)).layoutMode = String.toList "NONE" :=
  ⟨rfl, rfl⟩

/-- C7 (amended): `padding` and `itemSpacing` are emitted (at a child
layer or at the root) only when the source exposes a layout mode other
than `"NONE"` — though the `layoutMode` field itself is emitted even when
it is `"NONE"` — and whenever a padding is emitted it carries all four
sides of the source together, never a partial subset; a layer's padding
and item spacing are emitted together. -/
theorem layout_padding_policy (n : VisualNode) :
    (((extractLayerData n).attrs.padding.isSome ∨ (extractLayerData n).attrs.itemSpacing.isSome
        ∨ (extractComponentData n).padding.isSome ∨ (extractComponentData n).itemSpacing.isSome) →
      ∃ m, n.attrs.layoutMode = some m ∧ m ≠ String.toList "NONE")
    ∧ (∀ p, (extractLayerData n).attrs.padding = some p →
        p = ⟨n.attrs.paddingTop, n.attrs.paddingRight, n.attrs.paddingBottom, n.attrs.paddingLeft⟩)
    ∧ (∀ p, (extractComponentData n).padding = some p →
        p = ⟨n.attrs.paddingTop, n.attrs.paddingRight, n.attrs.paddingBottom, n.attrs.paddingLeft⟩)
    ∧ ((extractLayerData n).attrs.padding.isSome ↔ (extractLayerData n).attrs.itemSpacing.isSome) := by
  have hb := extract_attrs_eq n
  have h2 : ∀ p, (extractLayerData n).attrs.padding = some p →
      p = ⟨n.attrs.paddingTop, n.attrs.paddingRight, n.attrs.paddingBottom,
        n.attrs.paddingLeft⟩ := by
    intro p hp
    rw [hb] at hp
    rcases hL : n.attrs.layoutMode with _ | m <;>
      simp only [extractBaseAttrs, hL] at hp <;> split_ifs at hp <;> simp_all
  refine ⟨?_, h2, ?_, ?_⟩
  · intro h
    rcases hL : n.attrs.layoutMode with _ | m
    · exfalso
      rw [hb] at h
      simp only [extractBaseAttrs, extractComponentData, extract_attrs_eq, hL] at h
      split_ifs at h <;> simp_all [extractBaseAttrs, hL]
    · by_cases hm : m = String.toList "NONE"
      · exfalso
        subst hm
        rw [hb] at h
        simp only [extractBaseAttrs, extractComponentData, extract_attrs_eq, hL] at h
        split_ifs at h <;> simp_all [extractBaseAttrs, hL]
      · exact ⟨m, rfl, hm⟩
  · intro p hp
    simp only [extractComponentData] at hp
    rcases hL : n.attrs.layoutMode with _ | m <;> simp only [hL] at hp
    · exact h2 p (hb ▸ hp)
    · by_cases hm : m = String.toList "NONE"
      · rw [if_pos hm] at hp
        exact h2 p (hb ▸ hp)
      · rw [if_neg hm] at hp
        exact (Option.some.inj hp).symm
  · rw [hb]
    rcases hL : n.attrs.layoutMode with _ | m <;>
      simp only [extractBaseAttrs, hL] <;> split_ifs <;> simp

/-- C7 (witness): a vertical-layout frame with padding 8 on all sides is
serialized with a full four-sided padding, and its layout mode is not
`"NONE"`. -/
theorem layout_padding_policy_witness :
    ∃ m, vertFrameNode.attrs.layoutMode = some m ∧ m ≠ String.toList "NONE" :=
  (layout_padding_policy vertFrameNode).1 (Or.inl (by decide))

/-- C10 (counterexample): a `selection-info` message naming an
analyzable selection also re-enables the analyze control, although it is
none of `analysis-complete`, `analysis-error`, `analysis-no-results` —
refuting that those three are the only re-enabling message kinds. -/
theorem selection_info_reenables_cex :
    (uiOnMessage ⟨true, 0, 0, 0⟩
        (.selectionInfo (String.toList "Frame 1") (String.toList "Page > Frame 1") false)).analyzeDisabled
      = false
    ∧ isReenablingKind
        (.selectionInfo (String.toList "Frame 1") (String.toList "Page > Frame 1") false)
      = false :=
  ⟨by decide, rfl⟩

/-- C10 (amended): a successful analysis with at least one finding posts
exactly one `analysis-result` message per finding, in finding order, and
none of the unconditionally re-enabling kinds (`analysis-complete`,
`analysis-error`, `analysis-no-results`); since the success path posts
no `selection-info` either, the analyze control — disabled at click time
— stays disabled after all its messages are handled. -/
theorem analyze_success_messages_disabled (results : List AnalysisResult)
    (h : results ≠ []) :
    analyzeSuccessMessages results = results.map PluginMessage.analysisResult
    ∧ (∀ m ∈ analyzeSuccessMessages results, isReenablingKind m = false)
    ∧ ∀ st : UIState,
        ((analyzeSuccessMessages results).foldl uiOnMessage (uiClickAnalyze st)).analyzeDisabled
          = true := by
  have hlen : results.length > 0 := List.length_pos.mpr h
  have hmsgs : analyzeSuccessMessages results = results.map PluginMessage.analysisResult := by
    simp [analyzeSuccessMessages, hlen]
  refine ⟨hmsgs, ?_, ?_⟩
  · intro m hm
    rw [hmsgs] at hm
    obtain ⟨r, _, rfl⟩ := List.mem_map.mp hm
    rfl
  · intro st
    rw [hmsgs, foldl_analysisResults_disabled]
    rfl

/-- C10 (witness): with one concrete finding, the analyze handler posts
exactly that one `analysis-result` message and the control stays
disabled. -/
theorem analyze_success_messages_disabled_witness :
    analyzeSuccessMessages [⟨String.toList "a", String.toList "b", String.toList "c"⟩]
      = [PluginMessage.analysisResult ⟨String.toList "a", String.toList "b", String.toList "c"⟩]
    ∧ ((analyzeSuccessMessages [⟨String.toList "a", String.toList "b", String.toList "c"⟩]).foldl
          uiOnMessage (uiClickAnalyze ⟨false, 0, 0, 0⟩)).analyzeDisabled = true :=
  ⟨(analyze_success_messages_disabled
      [⟨String.toList "a", String.toList "b", String.toList "c"⟩] (by simp)).1,
   (analyze_success_messages_disabled
      [⟨String.toList "a", String.toList "b", String.toList "c"⟩] (by simp)).2.2
      ⟨false, 0, 0, 0⟩⟩

/-- C8 (counterexample): a node whose type is outside the five
container `switch` cases (here a real Figma type, `BOOLEAN_OPERATION`)
has its children dropped by the serializer: the source subtree has two
nodes but the document has one and an empty child list — refuting count
preservation for every input tree. -/
theorem children_drop_cex :
    nodeCount (.mk { plainAttrs with type := String.toList "BOOLEAN_OPERATION" }
        (some [.mk plainAttrs none])) = 2
    ∧ layerCount (extractLayerData
        (.mk { plainAttrs with type := String.toList "BOOLEAN_OPERATION" }
          (some [.mk plainAttrs none]))) = 1
    ∧ (extractLayerData (.mk { plainAttrs with type := String.toList "BOOLEAN_OPERATION" }
        (some [.mk plainAttrs none]))).children = [] :=
  ⟨rfl, rfl, rfl⟩

/-- C8 (amended): on trees in which every node that actually has
children is container-typed (`FRAME`, `GROUP`, `COMPONENT`,
`COMPONENT_SET`, `INSTANCE`) — the shape the host produces for the
container cases — serialization emits children in exactly the source
order at every level and preserves the total node count. -/
theorem serialize_structure_preserving (n : VisualNode) (h : wellFormedTree n = true) :
    (extractLayerData n).children = n.kids.map extractLayerData
    ∧ layerCount (extractLayerData n) = nodeCount n := by
  refine ⟨?_, layerCount_extract n h⟩
  obtain ⟨a, ocs⟩ := n
  cases ocs with
  | none => rfl
  | some cs =>
    cases cs with
    | nil =>
      cases hct : isContainerType a.type <;>
        simp [extractLayerData, VisualNode.kids, VisualNode.childrenProp, extractLayerList, hct,
          LayerData.children]
    | cons c cs' =>
      have h' : ((((c :: cs').isEmpty) || isContainerType a.type)
          && wellFormedList (c :: cs')) = true := h
      rw [Bool.and_eq_true, Bool.or_eq_true] at h'
      rcases h' with ⟨hc | hc, _⟩
      · simp [List.isEmpty] at hc
      · simp [extractLayerData, VisualNode.kids, VisualNode.childrenProp, hc,
          extractLayerList_eq_map, LayerData.children]

/-- C8 (witness): the three-node frame tree is well-formed; its document
lists the serialized rectangle and text children in source order and has
three nodes. -/
theorem serialize_structure_preserving_witness :
    wellFormedTree smallTree = true
    ∧ (extractLayerData smallTree).children = smallTree.kids.map extractLayerData
    ∧ layerCount (extractLayerData smallTree) = nodeCount smallTree :=
  ⟨rfl, (serialize_structure_preserving smallTree rfl).1,
    (serialize_structure_preserving smallTree rfl).2⟩

/-- C2 (counterexample): the text `"]["` contains both a `'['` and a
`']'`, yet the recovery parser extracts nothing and fails with the
no-JSON-array error instead of parsing the substring between them —
refuting the claim for every text containing both brackets. -/
theorem bracket_extraction_cex :
    '[' ∈ String.toList "][" ∧ ']' ∈ String.toList "]["
    ∧ extractArray (String.toList "][") = none
    ∧ recover (String.toList "][") = .error .noJsonArray :=
  ⟨by decide, by decide, rfl, rfl⟩

/-- C2 (amended): for every text (after fence stripping) whose first
`'['` precedes its last `']'`, the parser takes exactly the substring
from the first `'['` to the last `']'` inclusive, and the recovery
result is that of parsing and validating that substring alone — the
text outside it is discarded and never parsed. -/
theorem bracket_extraction_policy (l : List Char) (i j : Nat)
    (hi : firstOpenIdx l = some i) (hj : lastCloseIdx l = some j) (hij : i < j) :
    extractArray l = some ((l.drop i).take (j - i + 1))
    ∧ recoverFromStripped l = parseAndValidate ((l.drop i).take (j - i + 1)) := by
  have he : extractArray l = some ((l.drop i).take (j - i + 1)) := by
    simp [extractArray, hi, hj, hij]
  exact ⟨he, by simp [recoverFromStripped, he]⟩

/-- C2 (witness): on `"Here: [\"x\"] done"` the first `'['` is at index 6
and the last `']'` at index 10, and exactly `["x"]` is extracted. -/
theorem bracket_extraction_policy_witness :
    extractArray (String.toList "Here: [\"x\"] done") = some (String.toList "[\"x\"]") :=
  (bracket_extraction_policy (String.toList "Here: [\"x\"] done") 6 10 rfl rfl
    (by decide)).1.trans rfl

/-!
## Fence-stripping and extraction lemmas
-/

/-- When no fence alternative matches at the head of the text, the
stripping scan keeps the head character and continues. -/
theorem stripFences_cons_step (c : Char) (l : List Char)
    (h1 : ¬ ∃ rest, c = '`' ∧ l = '`' :: '`' :: 'j' :: 's' :: 'o' :: 'n' :: '\n' :: rest)
    (h2 : ¬ ∃ rest, c = '`' ∧ l = '`' :: '`' :: '\n' :: rest)
    (h3 : ¬ ∃ rest, c = '\n' ∧ l = '`' :: '`' :: '`' :: rest) :
    stripFences (c :: l) = c :: stripFences l := by
  rw [stripFences.eq_def]
  split
  all_goals first | rfl | simp_all

/-- A character that can start no fence alternative is kept. -/
theorem stripFences_cons_of_ne (c : Char) (l : List Char) (h1 : c ≠ '`') (h2 : c ≠ '\n') :
    stripFences (c :: l) = c :: stripFences l := by
  apply stripFences_cons_step <;> rintro ⟨rest, hc, -⟩ <;> [exact h1 hc; exact h1 hc; exact h2 hc]

/-- Text without a newline is left unchanged by fence stripping: every
alternative of the stripping regex contains a newline. -/
theorem stripFences_no_newline (l : List Char) (h : '\n' ∉ l) : stripFences l = l := by
  induction l with
  | nil => rfl
  | cons c t ih =>
    have hc : c ≠ '\n' := fun hx => h (hx ▸ List.mem_cons_self ..)
    have ht : '\n' ∉ t := fun hx => h (List.mem_cons_of_mem _ hx)
    rw [stripFences_cons_step c t, ih ht]
    · rintro ⟨rest, -, hl⟩
      exact ht (by rw [hl]; simp)
    · rintro ⟨rest, -, hl⟩
      exact ht (by rw [hl]; simp)
    · rintro ⟨rest, hc', -⟩
      exact hc hc'

/-- A prefix without backticks or newlines is scanned over unchanged. -/
theorem stripFences_prefix_scan (t rest : List Char)
    (h : ∀ c ∈ t, c ≠ '`' ∧ c ≠ '\n') :
    stripFences (t ++ rest) = t ++ stripFences rest := by
  induction t with
  | nil => rfl
  | cons c t ih =>
    have hc := h c (List.mem_cons_self ..)
    rw [List.cons_append, stripFences_cons_of_ne c _ hc.1 hc.2,
      ih (fun d hd => h d (List.mem_cons_of_mem _ hd))]
    rfl

/-- Two texts that agree up to their first newline have equal parts:
splitting at the first newline is unambiguous. -/
theorem append_newline_inj (t P X R : List Char) (ht : '\n' ∉ t) (hP : '\n' ∉ P)
    (h : t ++ '\n' :: X = P ++ '\n' :: R) : t = P ∧ X = R := by
  induction P generalizing t with
  | nil =>
    cases t with
    | nil => simpa using h
    | cons a t' =>
      exfalso
      rw [List.cons_append] at h
      obtain ⟨ha, -⟩ := List.cons.inj h
      exact ht (ha ▸ List.mem_cons_self ..)
  | cons p P' ih =>
    cases t with
    | nil =>
      exfalso
      rw [List.cons_append] at h
      obtain ⟨hp, -⟩ := List.cons.inj h.symm
      exact hP (hp ▸ List.mem_cons_self ..)
    | cons a t' =>
      rw [List.cons_append, List.cons_append] at h
      obtain ⟨ha, h'⟩ := List.cons.inj h
      have := ih t' (fun hx => ht (List.mem_cons_of_mem _ hx))
        (fun hx => hP (List.mem_cons_of_mem _ hx)) h'
      exact ⟨by rw [ha, this.1], this.2⟩

/-- Scanning the array body and the closing fence: the body (which holds
no newline) is kept and the closing `"\n```"` is deleted. -/
theorem stripFences_tail_scan (t : List Char) (ht : '\n' ∉ t) :
    stripFences (t ++ ']' :: '\n' :: ['`', '`', '`']) = t ++ [']'] := by
  induction t with
  | nil => rfl
  | cons c t ih =>
    have hc : c ≠ '\n' := fun hx => ht (hx ▸ List.mem_cons_self ..)
    have ht' : '\n' ∉ t := fun hx => ht (List.mem_cons_of_mem _ hx)
    have htb : '\n' ∉ t ++ [']'] := by simp [ht']
    rw [List.cons_append, stripFences_cons_step c _, ih ht']
    · rfl
    · rintro ⟨rest, -, hl⟩
      have hl' : (t ++ [']']) ++ '\n' :: ['`', '`', '`']
          = ['`', '`', 'j', 's', 'o', 'n'] ++ '\n' :: rest := by
        rw [List.append_assoc]
        exact hl
      have h4 := (append_newline_inj _ _ _ _ htb (by decide) hl').1
      have h5 : (']' : Char) ∈ ['`', '`', 'j', 's', 'o', 'n'] := by
        rw [← h4]; simp
      simp at h5
    · rintro ⟨rest, -, hl⟩
      have hl' : (t ++ [']']) ++ '\n' :: ['`', '`', '`'] = ['`', '`'] ++ '\n' :: rest := by
        rw [List.append_assoc]
        exact hl
      have h4 := (append_newline_inj _ _ _ _ htb (by decide) hl').1
      have h5 : (']' : Char) ∈ ['`', '`'] := by
        rw [← h4]; simp
      simp at h5
    · rintro ⟨rest, hc', -⟩
      exact hc hc'

/-- The bracket-extraction regex on text of the shape
`pre ++ "[" ++ m ++ "]" ++ post` with no `'['` in `pre` and no `']'` in
`post`: exactly `"[" ++ m ++ "]"` is extracted. -/
theorem extractArray_wrapped (pre m post : List Char)
    (hpre : '[' ∉ pre) (hpost : ']' ∉ post) :
    extractArray (pre ++ '[' :: (m ++ ']' :: post)) = some ('[' :: (m ++ [']'])) := by
  have hfirst : firstOpenIdx (pre ++ '[' :: (m ++ ']' :: post)) = some pre.length := by
    rw [firstOpenIdx, List.findIdx?_append]
    have h1 : List.findIdx? (fun c => c = '[') pre = none := by
      rw [List.findIdx?_eq_none_iff]
      intro c hc
      simp only [decide_eq_false_iff_not]
      exact fun hx => hpre (hx ▸ hc)
    rw [h1]
    simp [List.findIdx?_cons]
  have hrev : (pre ++ '[' :: (m ++ ']' :: post)).reverse
      = post.reverse ++ ']' :: (m.reverse ++ '[' :: pre.reverse) := by
    simp
  have hlast : lastCloseIdx (pre ++ '[' :: (m ++ ']' :: post))
      = some (pre.length + m.length + 1) := by
    rw [lastCloseIdx, hrev, List.findIdx?_append]
    have h1 : List.findIdx? (fun c => c = ']') post.reverse = none := by
      rw [List.findIdx?_eq_none_iff]
      intro c hc
      simp only [decide_eq_false_iff_not]
      exact fun hx => hpost (hx ▸ List.mem_reverse.mp hc)
    rw [h1]
    simp [List.findIdx?_cons, List.length_append]
    omega
  rw [extractArray, hfirst, hlast]
  dsimp only
  rw [if_pos (by omega)]
  congr 1
  have harith : pre.length + m.length + 1 - pre.length + 1 = m.length + 2 := by omega
  have hsplit : '[' :: (m ++ ']' :: post) = ('[' :: (m ++ [']'])) ++ post := by simp
  have hlen2 : ('[' :: (m ++ [']'])).length = m.length + 2 := by simp
  rw [List.drop_left pre, harith, hsplit, ← hlen2, List.take_left]

/-- Recovery factors through the extracted substring. -/
theorem recover_eq_parse (raw sub : List Char)
    (h : extractArray (stripFences raw) = some sub) :
    recover raw = parseAndValidate sub := by
  simp only [recover, recoverFromStripped, h]

/-- Stripping a fence whose tag is neither `json` nor empty: the opening
delimiter is left in place, only the closing `"\n```"` is deleted. -/
theorem stripFences_fenced_other (tag m : List Char)
    (htag : ∀ c ∈ tag, c ≠ '`' ∧ c ≠ '\n')
    (htagne : tag ≠ []) (htagjson : tag ≠ String.toList "json") (hm : '\n' ∉ m) :
    stripFences ('`' :: '`' :: '`'
        :: (tag ++ '\n' :: ('[' :: (m ++ ']' :: '\n' :: ['`', '`', '`']))))
      = '`' :: '`' :: '`' :: (tag ++ '\n' :: ('[' :: (m ++ [']']))) := by
  have htagnl : '\n' ∉ tag := fun hx => (htag _ hx).2 rfl
  have hbt : ∀ P : List Char, '\n' ∉ P → ('`' : Char) ∈ P →
      ∀ X rest, tag ++ '\n' :: X ≠ P ++ '\n' :: rest := by
    intro P hP hPb X rest hEq
    have := (append_newline_inj tag P _ _ htagnl hP hEq).1
    exact (htag '`' (this ▸ hPb)).1 rfl
  have s0 : stripFences ('`' :: ('`' :: '`'
      :: (tag ++ '\n' :: ('[' :: (m ++ ']' :: '\n' :: ['`', '`', '`'])))))
      = '`' :: stripFences ('`' :: '`'
        :: (tag ++ '\n' :: ('[' :: (m ++ ']' :: '\n' :: ['`', '`', '`'])))) := by
    apply stripFences_cons_step
    · rintro ⟨rest, -, hl⟩
      obtain ⟨-, hl⟩ := List.cons.inj hl
      obtain ⟨-, hl⟩ := List.cons.inj hl
      have := (append_newline_inj tag (String.toList "json") _ _ htagnl (by decide)
        (by exact hl)).1
      exact htagjson this
    · rintro ⟨rest, -, hl⟩
      obtain ⟨-, hl⟩ := List.cons.inj hl
      obtain ⟨-, hl⟩ := List.cons.inj hl
      have := (append_newline_inj tag [] _ _ htagnl (by decide) (by exact hl)).1
      exact htagne this
    · rintro ⟨rest, hc, -⟩
      exact absurd hc (by decide)
  have s1 : stripFences ('`' :: ('`'
      :: (tag ++ '\n' :: ('[' :: (m ++ ']' :: '\n' :: ['`', '`', '`'])))))
      = '`' :: stripFences ('`'
        :: (tag ++ '\n' :: ('[' :: (m ++ ']' :: '\n' :: ['`', '`', '`'])))) := by
    apply stripFences_cons_step
    · rintro ⟨rest, -, hl⟩
      obtain ⟨-, hl⟩ := List.cons.inj hl
      exact hbt (String.toList "`json") (by decide) (by decide) _ rest (by exact hl)
    · rintro ⟨rest, -, hl⟩
      obtain ⟨-, hl⟩ := List.cons.inj hl
      exact hbt ['`'] (by decide) (by decide) _ rest (by exact hl)
    · rintro ⟨rest, hc, -⟩
      exact absurd hc (by decide)
  have s2 : stripFences ('`'
      :: (tag ++ '\n' :: ('[' :: (m ++ ']' :: '\n' :: ['`', '`', '`']))))
      = '`' :: stripFences (tag ++ '\n' :: ('[' :: (m ++ ']' :: '\n' :: ['`', '`', '`']))) := by
    apply stripFences_cons_step
    · rintro ⟨rest, -, hl⟩
      exact hbt (String.toList "``json") (by decide) (by decide) _ rest (by exact hl)
    · rintro ⟨rest, -, hl⟩
      exact hbt (String.toList "``") (by decide) (by decide) _ rest (by exact hl)
    · rintro ⟨rest, hc, -⟩
      exact absurd hc (by decide)
  have s3 : stripFences (tag ++ '\n' :: ('[' :: (m ++ ']' :: '\n' :: ['`', '`', '`'])))
      = tag ++ stripFences ('\n' :: ('[' :: (m ++ ']' :: '\n' :: ['`', '`', '`']))) :=
    stripFences_prefix_scan tag _ htag
  have s4 : stripFences ('\n' :: ('[' :: (m ++ ']' :: '\n' :: ['`', '`', '`'])))
      = '\n' :: stripFences ('[' :: (m ++ ']' :: '\n' :: ['`', '`', '`'])) := by
    apply stripFences_cons_step
    · rintro ⟨rest, hc, -⟩
      exact absurd hc (by decide)
    · rintro ⟨rest, hc, -⟩
      exact absurd hc (by decide)
    · rintro ⟨rest, -, hl⟩
      exact absurd (List.cons.inj hl).1 (by decide)
  have s5 : stripFences ('[' :: (m ++ ']' :: '\n' :: ['`', '`', '`']))
      = ('[' :: m) ++ [']'] :=
    stripFences_tail_scan ('[' :: m) (by simp [hm])
  rw [s0, s1, s2, s3, s4, s5]
  rfl

/-- C5 (amended): the stripping step removes only untagged and
json-tagged fence delimiters, but a JSON array wrapped in a fence with
an arbitrary language tag is still recovered exactly as the bare array,
because the bracket-extraction step discards whatever the stripping step
left around the array. -/
theorem fenced_array_recovery (tag m : List Char)
    (htag : ∀ c ∈ tag, c ≠ '`' ∧ c ≠ '\n' ∧ c ≠ '[')
    (hm : '\n' ∉ m) :
    recover ('`' :: '`' :: '`'
        :: (tag ++ '\n' :: ('[' :: (m ++ ']' :: '\n' :: ['`', '`', '`']))))
      = recover ('[' :: (m ++ [']'])) := by
  have hmb : '\n' ∉ '[' :: (m ++ [']']) := by simp [hm]
  have hbare : extractArray ('[' :: (m ++ [']'])) = some ('[' :: (m ++ [']'])) :=
    extractArray_wrapped [] m [] (by simp) (by simp)
  have hrhs : recover ('[' :: (m ++ [']'])) = parseAndValidate ('[' :: (m ++ [']'])) :=
    recover_eq_parse _ _ (by rw [stripFences_no_newline _ hmb]; exact hbare)
  by_cases hj : tag = String.toList "json"
  · subst hj
    have hs : stripFences ('`' :: '`' :: '`' :: (String.toList "json"
        ++ '\n' :: ('[' :: (m ++ ']' :: '\n' :: ['`', '`', '`']))))
        = '[' :: (m ++ [']']) :=
      stripFences_tail_scan ('[' :: m) (by simp [hm])
    rw [recover_eq_parse _ _ (by rw [hs]; exact hbare), hrhs]
  · by_cases he : tag = []
    · subst he
      have hs : stripFences ('`' :: '`' :: '`' :: (([] : List Char)
          ++ '\n' :: ('[' :: (m ++ ']' :: '\n' :: ['`', '`', '`']))))
          = '[' :: (m ++ [']']) :=
        stripFences_tail_scan ('[' :: m) (by simp [hm])
      rw [recover_eq_parse _ _ (by rw [hs]; exact hbare), hrhs]
    · have hs := stripFences_fenced_other tag m
        (fun c hc => ⟨(htag c hc).1, (htag c hc).2.1⟩) he hj hm
      have hpre : '[' ∉ '`' :: '`' :: '`' :: (tag ++ ['\n']) := by
        intro hx
        simp only [List.mem_cons, List.mem_append] at hx
        rcases hx with h | h | h | h | h
        · exact absurd h (by decide)
        · exact absurd h (by decide)
        · exact absurd h (by decide)
        · exact (htag '[' h).2.2 rfl
        · simp at h
      have hex : extractArray (stripFences ('`' :: '`' :: '`'
          :: (tag ++ '\n' :: ('[' :: (m ++ ']' :: '\n' :: ['`', '`', '`'])))))
          = some ('[' :: (m ++ [']'])) := by
        rw [hs]
        have hgroup : '`' :: '`' :: '`' :: (tag ++ '\n' :: ('[' :: (m ++ [']'])))
            = ('`' :: '`' :: '`' :: (tag ++ ['\n'])) ++ '[' :: (m ++ ']' :: []) := by
          simp
        rw [hgroup]
        exact extractArray_wrapped _ m [] hpre (by simp)
      rw [recover_eq_parse _ _ hex, hrhs]

/-- C5 (witness): a JSON array in a `python`-tagged fence is recovered
exactly as the bare array. -/
theorem fenced_array_recovery_witness :
    recover ('`' :: '`' :: '`' :: (String.toList "python"
        ++ '\n' :: ('[' :: (String.toList "1" ++ ']' :: '\n' :: ['`', '`', '`']))))
      = recover ('[' :: (String.toList "1" ++ [']'])) :=
  fenced_array_recovery (String.toList "python") (String.toList "1") (by decide) (by decide)

/-!
## Round-trip of `JSON.parse` over `JSON.stringify` on finding arrays
-/

/-- Parsing a serialized hexadecimal digit recovers its value. -/
theorem hexVal_hexDigit (n : Nat) (hn : n < 16) : hexVal? (hexDigit n) = some n := by
  interval_cases n <;> decide

/-- Escaped characters never contain a raw newline. -/
theorem newline_not_mem_escapeChar (c : Char) : '\n' ∉ escapeChar c := by
  intro hx
  unfold escapeChar at hx
  split_ifs at hx with h1 h2 h3 h4 h5 h6 h7 h8 <;> simp at hx
  · have ha : c.toNat / 16 < 16 := by omega
    have hb : c.toNat % 16 < 16 := by omega
    rcases hx with h | h
    · have hv := hexVal_hexDigit _ ha
      rw [← h] at hv
      simp [hexVal?] at hv
    · have hv := hexVal_hexDigit _ hb
      rw [← h] at hv
      simp [hexVal?] at hv
  · exact h5 hx.symm

/-- A serialized string body never contains a raw newline. -/
theorem newline_not_mem_escBody (s : List Char) : '\n' ∉ escBody s := by
  intro hx
  rw [escBody, List.mem_flatMap] at hx
  obtain ⟨c, -, hmem⟩ := hx
  exact newline_not_mem_escapeChar c hmem

/-- A serialized string literal never contains a raw newline. -/
theorem newline_not_mem_quoteString (s : List Char) : '\n' ∉ quoteString s := by
  intro hx
  rw [quoteString] at hx
  rcases List.mem_cons.mp hx with h | h
  · exact absurd h (by decide)
  · rcases List.mem_append.mp h with h | h
    · exact newline_not_mem_escBody s h
    · simp at h

/-- Parsing a serialized string body recovers the original characters
and stops at the closing quote. -/
theorem parseStringBody_escBody (s rest : List Char) :
    parseStringBody (escBody s ++ '"' :: rest) = some (s, rest) := by
  induction s with
  | nil => rfl
  | cons c s ih =>
    rw [show escBody (c :: s) = escapeChar c ++ escBody s from rfl, List.append_assoc]
    by_cases h1 : c = '"'
    · subst h1
      rw [show escapeChar '"' = ['\\', '"'] from rfl]
      simp [parseStringBody, simpleEscape?, ih]
    · by_cases h2 : c = '\\'
      · subst h2
        rw [show escapeChar '\\' = ['\\', '\\'] from rfl]
        simp [parseStringBody, simpleEscape?, ih]
      · by_cases h3 : c = '\x08'
        · subst h3
          rw [show escapeChar '\x08' = ['\\', 'b'] from rfl]
          simp [parseStringBody, simpleEscape?, ih]
        · by_cases h4 : c = '\t'
          · subst h4
            rw [show escapeChar '\t' = ['\\', 't'] from rfl]
            simp [parseStringBody, simpleEscape?, ih]
          · by_cases h5 : c = '\n'
            · subst h5
              rw [show escapeChar '\n' = ['\\', 'n'] from rfl]
              simp [parseStringBody, simpleEscape?, ih]
            · by_cases h6 : c = '\x0c'
              · subst h6
                rw [show escapeChar '\x0c' = ['\\', 'f'] from rfl]
                simp [parseStringBody, simpleEscape?, ih]
              · by_cases h7 : c = '\r'
                · subst h7
                  rw [show escapeChar '\r' = ['\\', 'r'] from rfl]
                  simp [parseStringBody, simpleEscape?, ih]
                · by_cases h8 : c.toNat < 32
                  · rw [show escapeChar c = ['\\', 'u', '0', '0',
                        hexDigit (c.toNat / 16), hexDigit (c.toNat % 16)] from by
                      simp [escapeChar, h1, h2, h3, h4, h5, h6, h7, h8]]
                    have ha : c.toNat / 16 < 16 := by omega
                    have hb : c.toNat % 16 < 16 := by omega
                    simp only [List.cons_append, List.nil_append, parseStringBody,
                      hexVal_hexDigit _ ha, hexVal_hexDigit _ hb, ih]
                    have h0 : hexVal? '0' = some 0 := by decide
                    have hdm : ((0 * 16 + 0) * 16 + c.toNat / 16) * 16 + c.toNat % 16
                        = c.toNat := by omega
                    simp only [h0, List.append_eq, List.nil_append, ih, Option.map_some, hdm,
                      Char.ofNat_toNat]
                    rfl
                  · rw [show escapeChar c = [c] from by
                      simp [escapeChar, h1, h2, h3, h4, h5, h6, h7, h8]]
                    simp [parseStringBody, h1, h2, h8, ih]

/-- Parsing a serialized string literal yields the string value. -/
theorem parseValue_str (g : Nat) (s rest : List Char) :
    parseValue (g + 1) (quoteString s ++ rest) = some (.str s, rest) := by
  have hsh : quoteString s ++ rest = '"' :: (escBody s ++ '"' :: rest) := by
    simp [quoteString]
  rw [hsh]
  have hws : skipWs ('"' :: (escBody s ++ '"' :: rest))
      = '"' :: (escBody s ++ '"' :: rest) := rfl
  simp [parseValue, hws, parseStringBody_escBody]

/-- Parsing one serialized `"key":"value"` member followed by a comma
steps to the remaining members. -/
theorem parseMembers_step_comma (g : Nat) (k v T : List Char) :
    parseMembers (g + 2) (quoteString k ++ ':' :: (quoteString v ++ ',' :: T))
      = (parseMembers (g + 1) T).map (fun p => ((k, Json.str v) :: p.1, p.2)) := by
  have hsh : quoteString k ++ ':' :: (quoteString v ++ ',' :: T)
      = '"' :: (escBody k ++ '"' :: (':' :: (quoteString v ++ ',' :: T))) := by
    simp [quoteString]
  rw [hsh]
  simp [parseMembers, parseStringBody_escBody, parseValue_str g v (',' :: T), skipWs, isJsonWs]

/-- Parsing the last serialized `"key":"value"` member, closed by a
brace. -/
theorem parseMembers_step_close (g : Nat) (k v T : List Char) :
    parseMembers (g + 2) (quoteString k ++ ':' :: (quoteString v ++ '}' :: T))
      = some ([(k, Json.str v)], T) := by
  have hsh : quoteString k ++ ':' :: (quoteString v ++ '}' :: T)
      = '"' :: (escBody k ++ '"' :: (':' :: (quoteString v ++ '}' :: T))) := by
    simp [quoteString]
  rw [hsh]
  simp [parseMembers, parseStringBody_escBody, parseValue_str g v ('}' :: T), skipWs, isJsonWs]

/-- Head reduction of the object branch of the value parser. -/
theorem parseValue_obj_of_key (g : Nat) (t : List Char) :
    parseValue (g + 7) ('{' :: '"' :: t)
      = (parseMembers (g + 6) ('"' :: t)).map (fun p => (Json.obj p.1, p.2)) := rfl

/-- Parsing a serialized finding object yields its three members. -/
theorem parseValue_finding (g : Nat) (f : Finding) (rest : List Char) :
    parseValue (g + 7) (jsonStringify (findingToJson f) ++ rest)
      = some (findingToJson f, rest) := by
  have hsh : jsonStringify (findingToJson f) ++ rest
      = '{' :: (quoteString keyHeuristic ++ ':' :: (quoteString f.heuristic
          ++ ',' :: (quoteString keyIssue ++ ':' :: (quoteString f.issue
          ++ ',' :: (quoteString keySuggestion ++ ':' :: (quoteString f.suggestion
          ++ '}' :: rest)))))) := by
    simp [findingToJson, jsonStringify, stringifyMembers, quoteString]
  have hmem : parseMembers (g + 6) (quoteString keyHeuristic ++ ':' :: (quoteString f.heuristic
      ++ ',' :: (quoteString keyIssue ++ ':' :: (quoteString f.issue
      ++ ',' :: (quoteString keySuggestion ++ ':' :: (quoteString f.suggestion
      ++ '}' :: rest))))))
      = some ([(keyHeuristic, Json.str f.heuristic), (keyIssue, Json.str f.issue),
          (keySuggestion, Json.str f.suggestion)], rest) := by
    rw [show g + 6 = (g + 4) + 2 from rfl, parseMembers_step_comma]
    rw [show (g + 4) + 1 = (g + 3) + 2 from rfl, parseMembers_step_comma]
    rw [show (g + 3) + 1 = (g + 2) + 2 from rfl, parseMembers_step_close]
    rfl
  have hkey : quoteString keyHeuristic ++ ':' :: (quoteString f.heuristic
      ++ ',' :: (quoteString keyIssue ++ ':' :: (quoteString f.issue
      ++ ',' :: (quoteString keySuggestion ++ ':' :: (quoteString f.suggestion
      ++ '}' :: rest)))))
      = '"' :: (escBody keyHeuristic ++ '"' :: (':' :: (quoteString f.heuristic
      ++ ',' :: (quoteString keyIssue ++ ':' :: (quoteString f.issue
      ++ ',' :: (quoteString keySuggestion ++ ':' :: (quoteString f.suggestion
      ++ '}' :: rest))))))) := by
    simp [quoteString]
  rw [hsh, hkey, parseValue_obj_of_key, ← hkey, hmem]
  rfl

/-- An element followed by a comma steps to the remaining elements. -/
theorem parseElems_of_comma (g : Nat) (l T : List Char) (v : Json)
    (h : parseValue g l = some (v, ',' :: T)) :
    parseElems (g + 1) l = (parseElems g T).map (fun p => (v :: p.1, p.2)) := by
  simp [parseElems, h, skipWs, isJsonWs]

/-- The final element, closed by the bracket. -/
theorem parseElems_of_close (g : Nat) (l T : List Char) (v : Json)
    (h : parseValue g l = some (v, ']' :: T)) :
    parseElems (g + 1) l = some ([v], T) := by
  simp [parseElems, h, skipWs, isJsonWs]

/-- Parsing the serialized elements of a non-empty finding list yields
exactly those findings. -/
theorem parseElems_findings (l : List Finding) (f : Finding) (g : Nat) (rest : List Char) :
    parseElems (g + l.length + 8)
        (stringifyElems ((f :: l).map findingToJson) ++ ']' :: rest)
      = some ((f :: l).map findingToJson, rest) := by
  induction l generalizing f g with
  | nil =>
    have hv := parseValue_finding g f (']' :: rest)
    rw [show g + List.length ([] : List Finding) + 8 = (g + 7) + 1 from rfl]
    rw [show stringifyElems ([f].map findingToJson) = jsonStringify (findingToJson f) from rfl]
    exact parseElems_of_close (g + 7) _ rest (findingToJson f) hv
  | cons f2 l2 ih =>
    have hse : stringifyElems ((f :: f2 :: l2).map findingToJson)
        = jsonStringify (findingToJson f)
          ++ ',' :: stringifyElems ((f2 :: l2).map findingToJson) := rfl
    rw [hse]
    have hgr : (jsonStringify (findingToJson f)
          ++ ',' :: stringifyElems ((f2 :: l2).map findingToJson)) ++ ']' :: rest
        = jsonStringify (findingToJson f)
          ++ (',' :: (stringifyElems ((f2 :: l2).map findingToJson) ++ ']' :: rest)) := by
      simp
    rw [hgr]
    have hv := parseValue_finding (g + l2.length + 1) f
      (',' :: (stringifyElems ((f2 :: l2).map findingToJson) ++ ']' :: rest))
    have hstep := parseElems_of_comma ((g + l2.length + 1) + 7) _ _ _ hv
    rw [show g + List.length (f2 :: l2) + 8 = ((g + l2.length + 1) + 7) + 1 from rfl]
    rw [hstep]
    rw [show (g + l2.length + 1) + 7 = g + l2.length + 8 from rfl]
    rw [ih f2 g]
    rfl

/-- The serialized elements of a finding list are long enough to cover
one unit of parser fuel per element with room to spare. -/
theorem stringifyElems_len (l : List Finding) (f : Finding) :
    l.length + 13 ≤ (stringifyElems ((f :: l).map findingToJson)).length := by
  induction l generalizing f with
  | nil =>
    simp [stringifyElems, findingToJson, jsonStringify, stringifyMembers, quoteString,
      List.length_append]
    omega
  | cons f2 l2 ih =>
    have hse : stringifyElems ((f :: f2 :: l2).map findingToJson)
        = jsonStringify (findingToJson f)
          ++ ',' :: stringifyElems ((f2 :: l2).map findingToJson) := rfl
    rw [hse]
    have h1 := ih f2
    simp only [List.length_append, List.length_cons, List.length_map] at h1 ⊢
    omega

/-- `JSON.parse` of `JSON.stringify` of a non-empty finding array is the
array itself. -/
theorem parseJsonText_findings (f : Finding) (l : List Finding) :
    parseJsonText (jsonStringify (Json.arr ((f :: l).map findingToJson)))
      = some (Json.arr ((f :: l).map findingToJson)) := by
  have hlen := stringifyElems_len l f
  have htext : jsonStringify (Json.arr ((f :: l).map findingToJson))
      = '[' :: (stringifyElems ((f :: l).map findingToJson) ++ [']']) := by
    simp [jsonStringify]
  have hhead : ∃ t, stringifyElems ((f :: l).map findingToJson) = '{' :: t := by
    cases l with
    | nil => exact ⟨_, rfl⟩
    | cons f2 l2 => exact ⟨_, rfl⟩
  obtain ⟨t, ht⟩ := hhead
  have hred : parseValue ((stringifyElems ((f :: l).map findingToJson)).length + 2 + 1)
      ('[' :: (stringifyElems ((f :: l).map findingToJson) ++ [']']))
      = (parseElems ((stringifyElems ((f :: l).map findingToJson)).length + 2)
          (stringifyElems ((f :: l).map findingToJson) ++ [']'])).map
        (fun p => (Json.arr p.1, p.2)) := by
    rw [ht]
    rfl
  rw [parseJsonText, htext]
  rw [show ('[' :: (stringifyElems ((f :: l).map findingToJson) ++ [']'])).length + 1
      = ((stringifyElems ((f :: l).map findingToJson)).length + 2) + 1 from by simp]
  rw [hred]
  rw [show (stringifyElems ((f :: l).map findingToJson)).length + 2
      = ((stringifyElems ((f :: l).map findingToJson)).length + 2 - l.length - 8)
          + l.length + 8 from by omega]
  rw [parseElems_findings l f _ []]
  rfl

/-- Serialized findings contain no raw newline. -/
theorem newline_not_mem_findingChars (f : Finding) :
    '\n' ∉ jsonStringify (findingToJson f) := by
  simp [findingToJson, jsonStringify, stringifyMembers, newline_not_mem_quoteString]

/-- Serialized element lists of findings contain no raw newline. -/
theorem newline_not_mem_elems (l : List Finding) :
    '\n' ∉ stringifyElems (l.map findingToJson) := by
  induction l with
  | nil => simp [stringifyElems]
  | cons f l ih =>
    cases l with
    | nil => simpa [stringifyElems] using newline_not_mem_findingChars f
    | cons f2 l2 =>
      intro hx
      rw [show stringifyElems ((f :: f2 :: l2).map findingToJson)
          = jsonStringify (findingToJson f)
            ++ ',' :: stringifyElems ((f2 :: l2).map findingToJson) from rfl] at hx
      rcases List.mem_append.mp hx with h | h
      · exact newline_not_mem_findingChars f h
      · rcases List.mem_cons.mp h with h | h
        · exact absurd h (by decide)
        · exact ih h

/-- A serialized finding array contains no raw newline, so fence
stripping leaves it unchanged. -/
theorem newline_not_mem_arr (l : List Finding) :
    '\n' ∉ jsonStringify (Json.arr (l.map findingToJson)) := by
  intro hx
  rw [show jsonStringify (Json.arr (l.map findingToJson))
      = '[' :: (stringifyElems (l.map findingToJson) ++ [']']) from by simp [jsonStringify]] at hx
  rcases List.mem_cons.mp hx with h | h
  · exact absurd h (by decide)
  · rcases List.mem_append.mp h with h | h
    · exact newline_not_mem_elems l h
    · simp at h

/-- Every serialized finding survives the key-presence filter. -/
theorem filter_findings (l : List Finding) :
    (l.map findingToJson).filter isValidFinding = l.map findingToJson := by
  rw [List.filter_eq_self]
  intro j hj
  obtain ⟨f, -, rfl⟩ := List.mem_map.mp hj
  rfl

/-- C4 (counterexample): the empty list is a list of structurally valid
findings, yet recovery of its exact serialization `"[]"` fails with the
no-valid-findings error instead of returning the empty list — refuting
the round-trip for every list. -/
theorem recover_stringify_empty_cex :
    recover (jsonStringify (Json.arr (([] : List Finding).map findingToJson)))
      = .error .noValidFindings
    ∧ Except.error RecoverError.noValidFindings
        ≠ (Except.ok (([] : List Finding).map findingToJson) :
            Except RecoverError (List Json)) :=
  ⟨rfl, by simp⟩

/-- C4 (amended): for every non-empty list of structurally valid
findings, recovery of the exact `JSON.stringify` serialization of the
list returns the same list unchanged. -/
theorem recover_stringify_roundtrip (l : List Finding) (h : l ≠ []) :
    recover (jsonStringify (Json.arr (l.map findingToJson)))
      = .ok (l.map findingToJson) := by
  obtain ⟨f, l2, rfl⟩ : ∃ f l2, l = f :: l2 := by
    cases l with
    | nil => exact absurd rfl h
    | cons a b => exact ⟨a, b, rfl⟩
  have htext : jsonStringify (Json.arr ((f :: l2).map findingToJson))
      = '[' :: (stringifyElems ((f :: l2).map findingToJson) ++ [']']) := by
    simp [jsonStringify]
  have hstrip : stripFences (jsonStringify (Json.arr ((f :: l2).map findingToJson)))
      = jsonStringify (Json.arr ((f :: l2).map findingToJson)) :=
    stripFences_no_newline _ (newline_not_mem_arr _)
  have hex : extractArray
      (stripFences (jsonStringify (Json.arr ((f :: l2).map findingToJson))))
      = some (jsonStringify (Json.arr ((f :: l2).map findingToJson))) := by
    rw [hstrip, htext]
    exact extractArray_wrapped [] _ [] (by simp) (by simp)
  rw [recover_eq_parse _ _ hex]
  simp only [parseAndValidate, parseJsonText_findings f l2, filter_findings]
  rw [if_neg (by simp)]

/-- C4 (witness): the round-trip at one concrete finding. -/
theorem recover_stringify_roundtrip_witness :
    recover (jsonStringify (Json.arr ([(⟨String.toList "a", String.toList "b",
        String.toList "c"⟩ : Finding)].map findingToJson)))
      = .ok ([(⟨String.toList "a", String.toList "b", String.toList "c"⟩ : Finding)].map
          findingToJson) :=
  recover_stringify_roundtrip _ (by simp)

/-- C1 (counterexample): an entry whose three fields are present but are
the empty string — or not strings at all — survives validation and is
returned, refuting "every returned Finding has non-empty string
fields".  Only key presence is checked. -/
theorem returned_findings_nonempty_strings_cex :
    recover (String.toList
        "[\x7b\"heuristic\":\"\",\"issue\":\"\",\"suggestion\":\"\"\x7d,\x7b\"heuristic\":5,\"issue\":null,\"suggestion\":[]\x7d]")
      = .ok [Json.obj [(keyHeuristic, .str []), (keyIssue, .str []),
          (keySuggestion, .str [])],
        Json.obj [(keyHeuristic, .num ['5']), (keyIssue, .null),
          (keySuggestion, .arr [])]] :=
  rfl

/-- C1 (amended): every successful recovery returns exactly the parsed
entries that are objects containing all three keys `heuristic`, `issue`
and `suggestion` (an entry missing any key is dropped, not defaulted),
and the result is non-empty; the values under the keys are not
constrained to be non-empty strings. -/
theorem returned_findings_key_filter (raw : List Char) (l : List Json)
    (h : recover raw = .ok l) :
    (∃ sub items, extractArray (stripFences raw) = some sub
      ∧ parseJsonText sub = some (.arr items)
      ∧ l = items.filter isValidFinding)
    ∧ l ≠ []
    ∧ ∀ j ∈ l, isValidFinding j = true := by
  cases hex : extractArray (stripFences raw) with
  | none =>
    rw [recover, recoverFromStripped, hex] at h
    exact absurd h (by simp)
  | some sub =>
    rw [recover, recoverFromStripped, hex] at h
    cases hp : parseJsonText sub with
    | none => simp [parseAndValidate, hp] at h
    | some v =>
      cases v with
      | null => simp [parseAndValidate, hp] at h
      | bool b => simp [parseAndValidate, hp] at h
      | num r => simp [parseAndValidate, hp] at h
      | str s => simp [parseAndValidate, hp] at h
      | obj ms => simp [parseAndValidate, hp] at h
      | arr items =>
        simp only [parseAndValidate, hp] at h
        by_cases hz : (items.filter isValidFinding).length = 0
        · rw [if_pos hz] at h
          exact absurd h (by simp)
        · rw [if_neg hz] at h
          have hl : l = items.filter isValidFinding := (Except.ok.inj h).symm
          refine ⟨⟨sub, items, rfl, hp, hl⟩, ?_, ?_⟩
          · intro h0
            rw [h0] at hl
            exact hz (by rw [← hl]; rfl)
          · intro j hj
            rw [hl] at hj
            exact (List.mem_filter.mp hj).2

/-- C1 (witness): a list mixing one valid entry and one entry missing
the keys recovers to exactly the valid entry, which carries all three
keys. -/
theorem returned_findings_key_filter_witness :
    (∀ j ∈ [Json.obj [(keyHeuristic, .str (String.toList "a")),
        (keyIssue, .str (String.toList "b")),
        (keySuggestion, .str (String.toList "c"))]], isValidFinding j = true)
    ∧ recover (String.toList
        "x [\x7b\"heuristic\":\"a\",\"issue\":\"b\",\"suggestion\":\"c\"\x7d,\x7b\"bad\":1\x7d] y")
      = .ok [Json.obj [(keyHeuristic, .str (String.toList "a")),
          (keyIssue, .str (String.toList "b")),
          (keySuggestion, .str (String.toList "c"))]] :=
  ⟨(returned_findings_key_filter (String.toList
      "x [\x7b\"heuristic\":\"a\",\"issue\":\"b\",\"suggestion\":\"c\"\x7d,\x7b\"bad\":1\x7d] y")
      [Json.obj [(keyHeuristic, .str (String.toList "a")),
        (keyIssue, .str (String.toList "b")),
        (keySuggestion, .str (String.toList "c"))]] rfl).2.2, rfl⟩

/-- C9 (counterexample): a JSON error body whose `error` field is
present but empty (falsy) is not used: the message falls back to the
status text, refuting "using the server-supplied error field whenever
one is present". -/
theorem client_error_falsy_field_cex :
    getField (errorDataOf (String.toList "Internal Server Error")
        (String.toList "\x7b\"error\":\"\"\x7d")) (String.toList "error")
      = some (.str [])
    ∧ clientErrorText (String.toList "Internal Server Error")
        (String.toList "\x7b\"error\":\"\"\x7d")
      = some (String.toList "Server error: Internal Server Error")
    ∧ String.toList "Server error: Internal Server Error"
        ≠ String.toList "Server error: " ++ jsToString (.str []) :=
  ⟨rfl, rfl, by decide⟩

/-- C9 (amended): a non-2xx response is converted to the single string
`"Server error: X"`, where `X` is the server-supplied `error` field when
the body parses as JSON to a non-`null` value whose `error` field is
present and truthy, and otherwise the transport status text (body
absent or not JSON, no `error` field, or a falsy `error` field); a body
parsing to JSON `null` instead raises a property-access `TypeError`
before any message is built. -/
theorem client_error_message_policy (status : Nat) (statusText body : List Char)
    (hs : responseOk status = false) :
    handleFetchResponse status statusText body = .error (clientErrorText statusText body)
    ∧ (parseJsonText body = none →
        clientErrorText statusText body
          = some (String.toList "Server error: " ++ statusText))
    ∧ (∀ j, parseJsonText body = some j → j ≠ .null →
        clientErrorText statusText body = some (String.toList "Server error: "
          ++ (match getField j (String.toList "error") with
              | some v => if jsTruthy v then jsToString v else statusText
              | none => statusText)))
    ∧ (parseJsonText body = some .null → clientErrorText statusText body = none) := by
  refine ⟨?_, ?_, ?_, ?_⟩
  · simp [handleFetchResponse, hs]
  · intro hp
    have hg : getField (Json.obj [(String.toList "error", Json.str statusText)])
        (String.toList "error") = some (Json.str statusText) := rfl
    simp only [clientErrorText, errorDataOf, hp, hg]
    split_ifs <;> rfl
  · intro j hp hnull
    simp only [clientErrorText, errorDataOf, hp]
    cases j with
    | null => exact absurd rfl hnull
    | bool b => simp [getField]
    | num r => simp [getField]
    | str s => simp [getField]
    | arr items => simp [getField]
    | obj ms =>
      cases hg : getField (Json.obj ms) (String.toList "error") with
      | none => simp [hg]
      | some v =>
        simp only [hg]
        by_cases ht : jsTruthy v
        · rw [if_pos ht, if_pos ht]
        · rw [if_neg ht, if_neg ht]
  · intro hp
    simp [clientErrorText, errorDataOf, hp]

/-- C9 (witness): a 500 response with body `{"error":"boom"}` yields the
message `"Server error: boom"`; one with a non-JSON body yields
`"Server error: "` followed by the status text. -/
theorem client_error_message_policy_witness :
    handleFetchResponse 500 (String.toList "Internal Server Error")
        (String.toList "\x7b\"error\":\"boom\"\x7d")
      = .error (some (String.toList "Server error: boom"))
    ∧ handleFetchResponse 502 (String.toList "Bad Gateway") (String.toList "not json")
      = .error (some (String.toList "Server error: Bad Gateway")) := by
  constructor
  · have h := client_error_message_policy 500 (String.toList "Internal Server Error")
      (String.toList "\x7b\"error\":\"boom\"\x7d") rfl
    rw [h.1, h.2.2.1 (Json.obj [(String.toList "error", .str (String.toList "boom"))])
      rfl (by simp)]
    rfl
  · have h := client_error_message_policy 502 (String.toList "Bad Gateway")
      (String.toList "not json") rfl
    rw [h.1, h.2.1 rfl]
    rfl

end Eva
